import Mathlib

/-!
Verification of the tui-do list manager's cursor/focus state machine.

The multi-list screen model (`TuiDo.Model`, `TuiDo.Model.step`) is a shallow
embedding of the bubbletea `model`/`Update` of the multi-list variant; the
single-list variant (`Single.SModel`, `Single.sStep`) embeds `main.go`.
Go `int` values (cursor, selectedList, listStartOffset) are embedded as `Int`.
The bubbles text-input widgets are embedded as a focus flag plus the stored
text; a printable key delivered to a focused input appends its character
(the only text-editing primitive the claims depend on).  Rendering and file
I/O are external collaborators: persistence is embedded down to the JSON
value written/read (`marshalData` / `unmarshalData`), not the byte stream.
-/

namespace TuiDo

/-- One todo entry: `listItem` from the source (`Item`/`Completed`). -/
structure ListItem where
  item : String
  completed : Bool
deriving DecidableEq, Repr

/-- The `map[string][]listItem` of the source, embedded as an association list
with Go map semantics (at most one entry per key in all program-built values). -/
abbrev Lists := List (String × List ListItem)

/-- Go map read `m[k]` (first matching entry). -/
def lookupL (k : String) : Lists → Option (List ListItem)
  | [] => none
  | (k', v) :: rest => if k' = k then some v else lookupL k rest

/-- Go map write `m[k] = v`: overwrite the entry if present, else add it. -/
def insertL (k : String) (v : List ListItem) : Lists → Lists
  | [] => [(k, v)]
  | (k', v') :: rest => if k' = k then (k, v) :: rest else (k', v') :: insertL k v rest

/-- Go `delete(m, k)`: remove the entry for `k`. -/
def eraseL (k : String) : Lists → Lists
  | [] => []
  | (k', v) :: rest => if k' = k then eraseL k rest else (k', v) :: eraseL k rest

/-- A bubbles text input, reduced to the state the model observes. -/
structure TextField where
  focused : Bool
  text : String
deriving DecidableEq, Repr

/-- Whitespace test used by `strings.TrimSpace` (ASCII subset). -/
def isSpaceChar (c : Char) : Bool :=
  c == ' ' || c == '\t' || c == '\n' || c == '\r'

/-- `strings.TrimSpace`: drop leading and trailing whitespace. -/
def trimSpace (s : String) : String :=
  String.mk (((s.data.dropWhile isSpaceChar).reverse.dropWhile isSpaceChar).reverse)

/-- The multi-list `model` struct. -/
structure Model where
  lists : Lists
  keys : List String
  selectedList : Int
  cursor : Int
  textInput : TextField
  newListTextInput : TextField
  listStartOffset : Int
deriving DecidableEq, Repr

/-- `numKeys := len(m.keys)` computed at the top of `Update`. -/
def Model.numKeys (m : Model) : Int := m.keys.length

/-- `m.keys[m.selectedList]` (defaulting like Go only outside guarded uses). -/
def Model.selectedKey (m : Model) : String := m.keys.getD m.selectedList.toNat ""

/-- `items`: the selected list's items, `[]` when no list exists. -/
def Model.selItems (m : Model) : List ListItem :=
  if 0 < m.numKeys then (lookupL m.selectedKey m.lists).getD [] else []

/-- `numItems := len(items)`. -/
def Model.numItems (m : Model) : Int := m.selItems.length

/-- `inputsCount`: 2 when a list exists, else 1. -/
def Model.inputsCount (m : Model) : Int := if 0 < m.numKeys then 2 else 1

/-- `total := numKeys + numItems + inputsCount`. -/
def Model.total (m : Model) : Int := m.numKeys + m.numItems + m.inputsCount

/-- `newListIdx := total - 1`. -/
def Model.newListIdx (m : Model) : Int := m.total - 1

/-- `newItemIdx`: `total - 2` when two inputs are shown, else `-1`. -/
def Model.newItemIdx (m : Model) : Int :=
  if m.inputsCount = 2 then m.total - 2 else -1

/-- `getItemCursor`: cursor relative to the item region. -/
def Model.getItemCursor (m : Model) : Int := m.cursor - m.listStartOffset

/-- Key events the `Update` function distinguishes; `char c` is any other
printable key reaching the text inputs. -/
inductive Msg where
  | ctrlC | q | d | tab | shiftTab | up | down | enter | space
  | char (c : Char)
deriving DecidableEq, Repr

/-- JSON values, the target of `json.Marshal` / source of `json.Unmarshal`. -/
inductive Json where
  | str (s : String)
  | bool (b : Bool)
  | arr (elems : List Json)
  | obj (members : List (String × Json))

/-- The `jsonData` struct persisted by `SaveItems`. -/
structure JsonData where
  keys : List String
  lists : Lists

/-- `json.Marshal` of one `listItem`. -/
def marshalItem (it : ListItem) : Json :=
  .obj [("item", .str it.item), ("completed", .bool it.completed)]

/-- `json.Marshal` of an item slice. -/
def marshalItems (l : List ListItem) : Json :=
  .arr (l.map marshalItem)

/-- Ordered insertion by key, used to model Go's sorted map marshaling. -/
def insertSorted (p : String × List ListItem) : Lists → Lists
  | [] => [p]
  | q :: rest => if p.1 < q.1 then p :: q :: rest else q :: insertSorted p rest

/-- Sort map entries by key: `encoding/json` emits map keys in sorted order. -/
def sortPairs : Lists → Lists
  | [] => []
  | p :: rest => insertSorted p (sortPairs rest)

/-- `json.Marshal` of the `jsonData` record. -/
def marshalData (d : JsonData) : Json :=
  .obj [("keys", .arr (d.keys.map .str)),
        ("lists", .obj ((sortPairs d.lists).map fun p => (p.1, marshalItems p.2)))]

/-- `SaveItems`: the JSON value written to `~/.tui-do/.tui-do.json`. -/
def Model.saveItems (m : Model) : Json :=
  marshalData ⟨m.keys, m.lists⟩

/-- Effect of one event: keep running, or persist the snapshot and quit. -/
inductive Effect where
  | none
  | quit (saved : Json)

/-- Deliver one printable character to a text input: bubbles inserts it only
when the input is focused. -/
def typeChar (c : Char) (f : TextField) : TextField :=
  if f.focused then { f with text := f.text.push c } else f

/-- The `m.textInput.Update(msg)` / `m.newListTextInput.Update(msg)` calls at
the bottom of `Update`, restricted to the keys that can reach them. -/
def Model.fallthroughEdit (m : Model) : Msg → Model
  | .q => { m with textInput := typeChar 'q' m.textInput,
                   newListTextInput := typeChar 'q' m.newListTextInput }
  | .d => { m with textInput := typeChar 'd' m.textInput,
                   newListTextInput := typeChar 'd' m.newListTextInput }
  | .space => { m with textInput := typeChar ' ' m.textInput,
                       newListTextInput := typeChar ' ' m.newListTextInput }
  | .char c => { m with textInput := typeChar c m.textInput,
                        newListTextInput := typeChar c m.newListTextInput }
  | _ => m

/-- Flip `Completed` of the item at index `i` (in-place slice assignment). -/
def toggleAt (l : List ListItem) (i : Nat) : List ListItem :=
  match l.get? i with
  | some it => l.set i { it with completed := !it.completed }
  | none => l

/-- Selection adjustment after deleting the key at the cursor when keys
remain: previous key when the selected one was deleted (clamped to 0), a
left shift when a preceding key was deleted, otherwise unchanged. -/
def Model.deleteKeySel (m : Model) : Int :=
  if m.cursor = m.selectedList then
    if m.cursor - 1 < 0 then 0 else m.cursor - 1
  else if m.cursor < m.selectedList then m.selectedList - 1
  else m.selectedList

/-- Delete-key outcome when no keys remain: everything reset, add-list input
focused. -/
def Model.deleteKeyEmpty (m : Model) : Model :=
  { m with keys := m.keys.eraseIdx m.cursor.toNat,
           lists := eraseL (m.keys.getD m.cursor.toNat "") m.lists,
           selectedList := 0, listStartOffset := 0, cursor := 0,
           textInput := { m.textInput with focused := false },
           newListTextInput := { m.newListTextInput with focused := true } }

/-- Delete-key outcome when keys remain: adjusted selection, cursor on the
selected key row, both inputs blurred. -/
def Model.deleteKeySome (m : Model) : Model :=
  { m with keys := m.keys.eraseIdx m.cursor.toNat,
           lists := eraseL (m.keys.getD m.cursor.toNat "") m.lists,
           selectedList := m.deleteKeySel,
           listStartOffset := ((m.keys.eraseIdx m.cursor.toNat).length : Int),
           cursor := m.deleteKeySel,
           textInput := { m.textInput with focused := false },
           newListTextInput := { m.newListTextInput with focused := false } }

/-- The `"d"` branch when the cursor sits on a key row: remove the key and its
mapping entry, then fix selection, offset, cursor and focus. -/
def Model.deleteKeyStep (m : Model) : Model :=
  if (m.keys.eraseIdx m.cursor.toNat).length = 0 then m.deleteKeyEmpty
  else m.deleteKeySome

/-- The `"d"` branch when the cursor sits on an item row: drop the item,
`setCursor(len(newItems) - 1)`, store the shrunk slice. -/
def Model.deleteItemStep (m : Model) : Model :=
  let newItems := m.selItems.eraseIdx m.getItemCursor.toNat
  { m with cursor := (newItems.length : Int) - 1 + m.listStartOffset,
           lists := insertL m.selectedKey newItems m.lists }

/-- The move branch: `cursor ± 1`, focus recomputed from the un-wrapped
cursor, then the wrap across all on-screen elements. -/
def Model.moveStep (m : Model) (delta : Int) : Model :=
  let c1 := m.cursor + delta
  let ti :=
    if 0 ≤ m.newItemIdx ∧ c1 = m.newItemIdx then
      ({ m.textInput with focused := true }, { m.newListTextInput with focused := false })
    else if c1 = m.newListIdx then
      ({ m.textInput with focused := false }, { m.newListTextInput with focused := true })
    else
      ({ m.textInput with focused := false }, { m.newListTextInput with focused := false })
  let c2 := if m.total ≤ c1 then 0 else if c1 < 0 then m.total - 1 else c1
  { m with cursor := c2, textInput := ti.1, newListTextInput := ti.2 }

/-- Enter on a key row: select that list; nothing else moves. -/
def Model.selectListStep (m : Model) : Model :=
  { m with selectedList := m.cursor }

/-- Enter or space on an item row: flip that item's completion flag. -/
def Model.toggleItemStep (m : Model) : Model :=
  { m with lists := insertL m.selectedKey (toggleAt m.selItems m.getItemCursor.toNat) m.lists }

/-- Enter on the add-item row with accepted text: append the item, advance
the cursor with the shifted row, clear the field. -/
def Model.addItemStep (m : Model) : Model :=
  { m with lists := insertL m.selectedKey
             (m.selItems ++ [⟨trimSpace m.textInput.text, false⟩]) m.lists,
           cursor := m.cursor + 1,
           textInput := { m.textInput with text := "" } }

/-- Enter on the add-list row with accepted text: append the key with an
empty list, select it, move the cursor onto its add-item row, clear the
add-list field, move focus to the add-item field. -/
def Model.addListStep (m : Model) : Model :=
  { m with keys := m.keys ++ [trimSpace m.newListTextInput.text],
           lists := insertL (trimSpace m.newListTextInput.text) [] m.lists,
           selectedList := (m.keys.length : Int),
           listStartOffset := (m.keys.length : Int) + 1,
           cursor := (m.keys.length : Int) + 1,
           newListTextInput := { focused := false, text := "" },
           textInput := { m.textInput with focused := true } }

/-- The `"enter"` branch: select a list, toggle an item, add an item, or add
a list, depending on cursor position (blank trimmed text is rejected). -/
def Model.enterStep (m : Model) : Model :=
  if m.cursor < m.numKeys then m.selectListStep
  else if 0 ≤ m.getItemCursor ∧ m.getItemCursor < m.numItems then m.toggleItemStep
  else if 0 ≤ m.newItemIdx ∧ m.cursor = m.newItemIdx then
    if trimSpace m.textInput.text = "" then m else m.addItemStep
  else if m.cursor = m.newListIdx then
    if trimSpace m.newListTextInput.text = "" then m else m.addListStep
  else m

/-- The `" "` branch: toggle the item under the cursor, if any. -/
def Model.spaceStep (m : Model) : Model :=
  if 0 ≤ m.getItemCursor ∧ m.getItemCursor < m.numItems then m.toggleItemStep
  else m

/-- One call of `Update` on a key event: the next model plus the effect. -/
def Model.step (m : Model) : Msg → Model × Effect
  | .ctrlC => (m, .quit m.saveItems)
  | .q =>
      if m.getItemCursor = m.numItems ∧ 0 < m.numKeys then (m.fallthroughEdit .q, .none)
      else (m, .quit m.saveItems)
  | .d =>
      if m.cursor < m.numKeys then (m.deleteKeyStep, .none)
      else if m.getItemCursor < 0 ∨ m.numItems ≤ m.getItemCursor then
        (m.fallthroughEdit .d, .none)
      else (m.deleteItemStep.fallthroughEdit .d, .none)
  | .up => (m.moveStep (-1), .none)
  | .shiftTab => (m.moveStep (-1), .none)
  | .down => (m.moveStep 1, .none)
  | .tab => (m.moveStep 1, .none)
  | .enter => (m.enterStep, .none)
  | .space => (m.spaceStep.fallthroughEdit .space, .none)
  | .char c => (m.fallthroughEdit (.char c), .none)

/-- `initialModel` built over a loaded snapshot: fresh inputs, selection 0,
cursor on the selected list's add-item row (or 0 with no lists), focus on the
add-item input when a list exists, else on the add-list input. -/
def initialModel (lists : Lists) (keys : List String) : Model :=
  let listStartOffset : Int := keys.length
  let cursor : Int :=
    if 0 < keys.length then
      ((lookupL (keys.getD 0 "") lists).getD []).length + listStartOffset
    else 0
  { lists := lists, keys := keys, selectedList := 0, cursor := cursor,
    textInput := ⟨0 < keys.length, ""⟩,
    newListTextInput := ⟨decide (keys.length = 0), ""⟩,
    listStartOffset := listStartOffset }

/-- States reachable from some loaded snapshot by key events. -/
inductive Reachable : Model → Prop where
  | init (lists : Lists) (keys : List String) : Reachable (initialModel lists keys)
  | next (m : Model) (msg : Msg) : Reachable m → Reachable (m.step msg).1

/-- Fold a list of key events over a model. -/
def applyEvents (m : Model) (evs : List Msg) : Model :=
  evs.foldl (fun s e => (s.step e).1) m

/-- Cursor delta of a move event: next for down/tab, previous otherwise. -/
def moveDelta : Msg → Int
  | .down => 1
  | .tab => 1
  | _ => -1

/-- The event `msg` is an add-list confirm whose (accepted) name is already
present in the key sequence. -/
def addsDuplicateList (m : Model) (msg : Msg) : Prop :=
  msg = Msg.enter ∧ ¬ m.cursor < m.numKeys ∧
  ¬ (0 ≤ m.getItemCursor ∧ m.getItemCursor < m.numItems) ∧
  ¬ (0 ≤ m.newItemIdx ∧ m.cursor = m.newItemIdx) ∧ m.cursor = m.newListIdx ∧
  trimSpace m.newListTextInput.text ≠ "" ∧
  trimSpace m.newListTextInput.text ∈ m.keys

/-- States reachable from a well-formed snapshot (duplicate-free keys that
match the mapping) by event sequences that never add a duplicate list name. -/
inductive ReachableND : Model → Prop where
  | init (lists : Lists) (keys : List String) :
      keys.Nodup → (lists.map Prod.fst).Nodup →
      (∀ k ∈ keys, k ∈ lists.map Prod.fst) →
      (∀ k ∈ lists.map Prod.fst, k ∈ keys) →
      ReachableND (initialModel lists keys)
  | next (m : Model) (msg : Msg) : ReachableND m → ¬ addsDuplicateList m msg →
      ReachableND (m.step msg).1

/-- Key sequence and list mapping correspond: same names on both sides. -/
def Correspond (m : Model) : Prop :=
  (∀ k ∈ m.keys, k ∈ m.lists.map Prod.fst) ∧
  (∀ k ∈ m.lists.map Prod.fst, k ∈ m.keys)

/-- The C3 inductive invariant: duplicate-free keys on both sides plus the
exact correspondence. -/
def InvND (m : Model) : Prop :=
  m.keys.Nodup ∧ (m.lists.map Prod.fst).Nodup ∧ Correspond m

/-- An event trace that adds list "A" twice and then deletes the first of
the two "A" key rows. -/
def dupTrace : List Msg :=
  [.char 'A', .enter, .down, .char 'A', .enter, .up, .up, .d]

/-- One list "A" with no items, cursor on its key row, both inputs blurred. -/
def moveCounterModel : Model :=
  ⟨[("A", [])], ["A"], 0, 0, ⟨false, ""⟩, ⟨false, ""⟩, 1⟩

/-- One empty list "A", cursor on the add-item row, add-item input focused
and holding "x". -/
def deleteTypeModel : Model :=
  ⟨[("A", [])], ["A"], 0, 1, ⟨true, "x"⟩, ⟨false, ""⟩, 1⟩

/-- The spec's delete-item scenario: list "Groceries" with items milk and
eggs, cursor on the "eggs" row. -/
def deleteItemScenario : Model :=
  ⟨[("Groceries", [⟨"milk", false⟩, ⟨"eggs", false⟩])], ["Groceries"], 0, 2,
   ⟨false, ""⟩, ⟨false, ""⟩, 1⟩

/-- The spec's delete-list scenario: lists A and B, B selected, cursor on
A's key row. -/
def deleteListScenario : Model :=
  ⟨[("A", []), ("B", [])], ["A", "B"], 1, 0, ⟨false, ""⟩, ⟨false, ""⟩, 2⟩

/-- The spec's add-list scenario: zero lists, add-list input focused with
"Groceries" typed into it. -/
def addListScenario : Model :=
  ⟨[], [], 0, 0, ⟨false, ""⟩, ⟨true, "Groceries"⟩, 0⟩

/-- One empty list "A", cursor on the add-item row, whitespace-only text in
the focused add-item input. -/
def blankItemModel : Model :=
  ⟨[("A", [])], ["A"], 0, 1, ⟨true, "  "⟩, ⟨false, ""⟩, 1⟩

/-- A two-list model used to exercise the save/load round trip. -/
def roundtripModel : Model :=
  ⟨[("B", [⟨"eggs", true⟩]), ("A", [⟨"milk", false⟩])], ["B", "A"], 0, 1,
   ⟨false, ""⟩, ⟨false, ""⟩, 2⟩

/-- A model on the add-item row used to exercise the quit suppression. -/
def quitModel : Model :=
  ⟨[("A", [⟨"milk", false⟩])], ["A"], 0, 2, ⟨true, "mi"⟩, ⟨false, ""⟩, 1⟩

/-- Decode a JSON array element expected to be a string (`[]string` target);
like `json.Unmarshal`, any other shape is an error. -/
def decodeStrings : List Json → Option (List String)
  | [] => some []
  | .str s :: rest => (decodeStrings rest).map (s :: ·)
  | _ => Option.none

/-- Member lookup inside a JSON object. -/
def lookupJ (k : String) : List (String × Json) → Option Json
  | [] => none
  | (k', v) :: rest => if k' = k then some v else lookupJ k rest

/-- Decode one `listItem`; missing members get Go zero values. -/
def decodeItem : Json → Option ListItem
  | .obj ms =>
      match lookupJ "item" ms, lookupJ "completed" ms with
      | some (.str s), some (.bool b) => some ⟨s, b⟩
      | some (.str s), none => some ⟨s, false⟩
      | none, some (.bool b) => some ⟨"", b⟩
      | none, none => some ⟨"", false⟩
      | _, _ => Option.none
  | _ => Option.none

/-- Decode a `[]listItem`. -/
def decodeItems : Json → Option (List ListItem)
  | .arr es => go es
  | _ => Option.none
where
  go : List Json → Option (List ListItem)
    | [] => some []
    | j :: rest => do
        let it ← decodeItem j
        let tl ← go rest
        pure (it :: tl)

/-- Decode the `map[string][]listItem`. -/
def decodePairs : List (String × Json) → Option Lists
  | [] => some []
  | (k, j) :: rest => do
      let v ← decodeItems j
      let tl ← decodePairs rest
      pure ((k, v) :: tl)

/-- `json.Unmarshal` into the `jsonData` struct; missing members keep their
zero value, mismatched shapes are an error. -/
def unmarshalData : Json → Option JsonData
  | .obj ms => do
      let keys ←
        match lookupJ "keys" ms with
        | some (.arr es) => decodeStrings es
        | none => some []
        | _ => Option.none
      let lists ←
        match lookupJ "lists" ms with
        | some (.obj lms) => decodePairs lms
        | none => some []
        | _ => Option.none
      pure ⟨keys, lists⟩
  | _ => Option.none

/-- `loadItems` applied to the file's JSON value: returns `(lists, keys)`. -/
def loadItems (j : Json) : Option (Lists × List String) :=
  (unmarshalData j).map fun d => (d.lists, d.keys)

end TuiDo

namespace Single

open TuiDo (ListItem TextField Msg Json Effect marshalItem toggleAt)

/-- The single-list variant's `model` struct from `main.go`. -/
structure SModel where
  items : List ListItem
  cursor : Int
  textInput : TextField
deriving DecidableEq, Repr

/-- `SaveItems` of the single-list variant: the items as one JSON array. -/
def SModel.save (m : SModel) : Json :=
  .arr (m.items.map marshalItem)

/-- Text-input fall-through of `main.go`'s `Update`. -/
def SModel.fallthroughEdit (m : SModel) : Msg → SModel
  | .q => { m with textInput := TuiDo.typeChar 'q' m.textInput }
  | .d => { m with textInput := TuiDo.typeChar 'd' m.textInput }
  | .space => { m with textInput := TuiDo.typeChar ' ' m.textInput }
  | .char c => { m with textInput := TuiDo.typeChar c m.textInput }
  | _ => m

/-- The move branch of `main.go`: wrap over `len(items) + 1` rows, then focus
the input exactly when the cursor reaches the input row. -/
def SModel.moveStep (m : SModel) (delta : Int) : SModel :=
  let c1 := m.cursor + delta
  let c2 := if (m.items.length : Int) < c1 then 0
            else if c1 < 0 then (m.items.length : Int) else c1
  { m with cursor := c2,
           textInput := { m.textInput with focused := decide ((m.items.length : Int) = c2) } }

/-- The single-list state of main.go with no items and whitespace-only text
in the focused input. -/
def blankSubmitModel : SModel :=
  ⟨[], 0, ⟨true, " "⟩⟩

/-- One `Update` call of the single-list variant (`main.go`).  Note its
`enter` branch appends `m.textInput.Value()` verbatim: no trimming and no
blank-rejection exists in this variant. -/
def sStep (m : SModel) : Msg → SModel × Effect
  | .ctrlC => (m, .quit m.save)
  | .q =>
      if m.cursor = (m.items.length : Int) then (m.fallthroughEdit .q, .none)
      else (m, .quit m.save)
  | .up => (m.moveStep (-1), .none)
  | .shiftTab => (m.moveStep (-1), .none)
  | .down => (m.moveStep 1, .none)
  | .tab => (m.moveStep 1, .none)
  | .enter =>
      if m.cursor = (m.items.length : Int) then
        ({ m with items := m.items ++ [⟨m.textInput.text, false⟩],
                  cursor := m.cursor + 1,
                  textInput := { m.textInput with text := "" } }, .none)
      else
        ({ m with items := toggleAt m.items m.cursor.toNat }, .none)
  | .space =>
      if m.cursor = (m.items.length : Int) then (m.fallthroughEdit .space, .none)
      else (({ m with items := toggleAt m.items m.cursor.toNat } : SModel).fallthroughEdit
              .space, .none)
  | .d => (m.fallthroughEdit .d, .none)
  | .char c => (m.fallthroughEdit (.char c), .none)

end Single

namespace TuiDo

/-! ### Association-list and indexed-list lemmas -/

lemma lookupL_insertL_self (k : String) (v : List ListItem) (l : Lists) :
    lookupL k (insertL k v l) = some v := by
  induction l with
  | nil => simp [insertL, lookupL]
  | cons p rest ih =>
      obtain ⟨k', v'⟩ := p
      by_cases h : k' = k
      · simp [insertL, h, lookupL]
      · simp [insertL, h, lookupL, ih]

lemma lookupL_insertL_ne {k' k : String} (v : List ListItem) (l : Lists) (h : k' ≠ k) :
    lookupL k' (insertL k v l) = lookupL k' l := by
  induction l with
  | nil => simp [insertL, lookupL, Ne.symm h]
  | cons p rest ih =>
      obtain ⟨k'', v''⟩ := p
      by_cases hk : k'' = k
      · simp [insertL, hk, lookupL, Ne.symm h]
      · simp only [insertL, if_neg hk, lookupL]
        by_cases hk2 : k'' = k'
        · simp [hk2]
        · simp [hk2, ih]

lemma lookupL_eraseL_self (k : String) (l : Lists) : lookupL k (eraseL k l) = none := by
  induction l with
  | nil => simp [eraseL, lookupL]
  | cons p rest ih =>
      obtain ⟨k', v'⟩ := p
      by_cases h : k' = k
      · simpa [eraseL, h] using ih
      · simpa [eraseL, h, lookupL] using ih

lemma lookupL_eraseL_ne {k' k : String} (l : Lists) (h : k' ≠ k) :
    lookupL k' (eraseL k l) = lookupL k' l := by
  induction l with
  | nil => simp [eraseL]
  | cons p rest ih =>
      obtain ⟨k'', v''⟩ := p
      by_cases hk : k'' = k
      · simpa [eraseL, hk, lookupL, Ne.symm h] using ih
      · by_cases hk2 : k'' = k'
        · simp [eraseL, hk, lookupL, hk2, h]
        · simpa [eraseL, hk, lookupL, hk2] using ih

lemma mem_eraseL {p : String × List ListItem} {k : String} {l : Lists} :
    p ∈ eraseL k l ↔ p ∈ l ∧ p.1 ≠ k := by
  induction l with
  | nil => simp [eraseL]
  | cons q rest ih =>
      obtain ⟨k', v'⟩ := q
      by_cases h : k' = k
      · simp only [eraseL, if_pos h, ih, List.mem_cons]
        constructor
        · rintro ⟨hp, hne⟩
          exact ⟨Or.inr hp, hne⟩
        · rintro ⟨hp | hp, hne⟩
          · rw [hp] at hne
            exact absurd h hne
          · exact ⟨hp, hne⟩
      · simp only [eraseL, if_neg h, List.mem_cons, ih]
        constructor
        · rintro (hp | ⟨hp, hne⟩)
          · refine ⟨Or.inl hp, ?_⟩
            rw [hp]
            exact h
          · exact ⟨Or.inr hp, hne⟩
        · rintro ⟨hp | hp, hne⟩
          · exact Or.inl hp
          · exact Or.inr ⟨hp, hne⟩

lemma lookupL_isSome_iff {k : String} {l : Lists} :
    (lookupL k l).isSome = true ↔ k ∈ l.map Prod.fst := by
  induction l with
  | nil => simp [lookupL]
  | cons p rest ih =>
      obtain ⟨k', v'⟩ := p
      by_cases h : k' = k
      · simp [lookupL, h]
      · simp [lookupL, h, ih, Ne.symm h]

lemma map_fst_insertL_of_present {k : String} {v : List ListItem} {l : Lists}
    (h : (lookupL k l).isSome = true) :
    (insertL k v l).map Prod.fst = l.map Prod.fst := by
  induction l with
  | nil => simp [lookupL] at h
  | cons p rest ih =>
      obtain ⟨k', v'⟩ := p
      by_cases hk : k' = k
      · simp [insertL, hk]
      · simp only [lookupL, if_neg hk] at h
        simp [insertL, hk, ih h]

lemma map_fst_insertL_of_absent {k : String} {v : List ListItem} {l : Lists}
    (h : lookupL k l = none) :
    (insertL k v l).map Prod.fst = l.map Prod.fst ++ [k] := by
  induction l with
  | nil => simp [insertL]
  | cons p rest ih =>
      obtain ⟨k', v'⟩ := p
      by_cases hk : k' = k
      · simp [lookupL, hk] at h
      · simp only [lookupL, if_neg hk] at h
        simp [insertL, hk, ih h]

lemma getD_mem {α : Type} : ∀ (l : List α) (i : Nat), i < l.length → ∀ d, l.getD i d ∈ l
  | a :: as, 0, _, d => by simp [List.getD]
  | a :: as, i + 1, h, d => by
      have := getD_mem as i (by simpa using h) d
      simp [List.getD] at this ⊢
      exact Or.inr this

lemma getD_append_last {α : Type} (l : List α) (a d : α) :
    (l ++ [a]).getD l.length d = a := by
  induction l with
  | nil => simp [List.getD]
  | cons x xs _ => simp [List.getD]

lemma length_eraseIdx_int {α : Type} :
    ∀ (l : List α) (i : Nat), i < l.length →
      ((l.eraseIdx i).length : Int) = (l.length : Int) - 1
  | a :: as, 0, _ => by simp
  | a :: as, i + 1, h => by
      have := length_eraseIdx_int as i (by simpa using h)
      simp only [List.eraseIdx, List.length_cons] at this ⊢
      push_cast at this ⊢
      omega

lemma mem_of_mem_eraseIdx {α : Type} {x : α} :
    ∀ {l : List α} {i : Nat}, x ∈ l.eraseIdx i → x ∈ l
  | [], _, h => by simp [List.eraseIdx] at h
  | a :: as, 0, h => by simp [List.eraseIdx] at h; simp [h]
  | a :: as, i + 1, h => by
      simp only [List.eraseIdx, List.mem_cons] at h ⊢
      exact h.imp id mem_of_mem_eraseIdx

lemma not_mem_eraseIdx_self {α : Type} [DecidableEq α] :
    ∀ {l : List α} {i : Nat} {d : α}, l.Nodup → i < l.length → l.getD i d ∉ l.eraseIdx i
  | a :: as, 0, d, hnd, _ => by
      simp only [List.getD, List.eraseIdx]
      simpa using (List.nodup_cons.mp hnd).1
  | a :: as, i + 1, d, hnd, h => by
      have ih := not_mem_eraseIdx_self (l := as) (i := i) (d := d)
        (List.nodup_cons.mp hnd).2 (by simpa using h)
      have hmem : as.getD i d ∈ as := getD_mem as i (by simpa using h) d
      have hne : as.getD i d ≠ a := by
        intro hh
        exact (List.nodup_cons.mp hnd).1 (hh ▸ hmem)
      simp only [List.getD, List.eraseIdx, List.mem_cons] at ih ⊢
      rintro (hc | hc)
      · exact hne hc
      · exact ih hc

lemma mem_eraseIdx_of_ne {α : Type} :
    ∀ {l : List α} {i : Nat} {x : α} {d : α}, x ∈ l → i < l.length → x ≠ l.getD i d →
      x ∈ l.eraseIdx i
  | a :: as, 0, x, d, hx, _, hne => by
      simp only [List.getD] at hne
      simp only [List.mem_cons] at hx
      simpa [List.eraseIdx] using hx.resolve_left hne
  | a :: as, i + 1, x, d, hx, h, hne => by
      simp only [List.mem_cons] at hx
      rcases hx with rfl | hx
      · simp [List.eraseIdx]
      · have := mem_eraseIdx_of_ne (l := as) (i := i) (d := d) hx (by simpa using h)
          (by simpa [List.getD] using hne)
        simp [List.eraseIdx, this]

lemma nodup_eraseIdx {α : Type} :
    ∀ {l : List α} {i : Nat}, l.Nodup → (l.eraseIdx i).Nodup
  | [], _, _ => by simp [List.eraseIdx]
  | a :: as, 0, h => by
      simpa [List.eraseIdx] using (List.nodup_cons.mp h).2
  | a :: as, i + 1, h => by
      obtain ⟨ha, has⟩ := List.nodup_cons.mp h
      have := nodup_eraseIdx (l := as) (i := i) has
      simp only [List.eraseIdx]
      exact List.nodup_cons.mpr ⟨fun hc => ha (mem_of_mem_eraseIdx hc), this⟩

lemma length_toggleAt (l : List ListItem) (i : Nat) : (toggleAt l i).length = l.length := by
  unfold toggleAt
  cases h : l.get? i <;> simp

/-! ### The reachable-state invariant -/

/-- The inductive invariant of the multi-list model: the cursor addresses a
row of the current projection, the cached offset equals the key count, and
the selection index is valid whenever a list exists. -/
def Inv (m : Model) : Prop :=
  0 ≤ m.cursor ∧ m.cursor < m.total ∧ m.listStartOffset = m.numKeys ∧
  0 ≤ m.selectedList ∧ (0 < m.numKeys → m.selectedList < m.numKeys)

lemma numKeys_nonneg (m : Model) : 0 ≤ m.numKeys := by
  simp [Model.numKeys]

lemma numItems_nonneg (m : Model) : 0 ≤ m.numItems := by
  simp [Model.numItems]

lemma total_pos (m : Model) : 0 < m.total := by
  have h1 := numKeys_nonneg m
  have h2 := numItems_nonneg m
  unfold Model.total Model.inputsCount
  split <;> omega

lemma total_congr (m m' : Model) (hk : m'.keys = m.keys) (hl : m'.lists = m.lists)
    (hs : m'.selectedList = m.selectedList) : m'.total = m.total := by
  simp [Model.total, Model.numKeys, Model.numItems, Model.selItems, Model.selectedKey,
    Model.inputsCount, hk, hl, hs]

lemma selItems_eq_insert {m m' : Model} {v : List ListItem}
    (hk : m'.keys = m.keys) (hs : m'.selectedList = m.selectedList)
    (hl : m'.lists = insertL m.selectedKey v m.lists) (h : 0 < m.numKeys) :
    m'.selItems = v := by
  have hsk : m'.selectedKey = m.selectedKey := by simp [Model.selectedKey, hk, hs]
  have hnk : m'.numKeys = m.numKeys := by simp [Model.numKeys, hk]
  simp [Model.selItems, hnk, h, hsk, hl, lookupL_insertL_self]

lemma inv_congr {m m' : Model} (hk : m'.keys = m.keys) (hl : m'.lists = m.lists)
    (hs : m'.selectedList = m.selectedList) (hc : m'.cursor = m.cursor)
    (ho : m'.listStartOffset = m.listStartOffset) (h : Inv m) : Inv m' := by
  have hnk : m'.numKeys = m.numKeys := by simp [Model.numKeys, hk]
  unfold Inv at h ⊢
  rw [total_congr m m' hk hl hs, hc, ho, hs, hnk]
  exact h

lemma inv_fallthroughEdit (m : Model) (msg : Msg) (h : Inv m) :
    Inv (m.fallthroughEdit msg) := by
  cases msg <;> exact inv_congr rfl rfl rfl rfl rfl h

lemma inv_moveStep (m : Model) (delta : Int) (h : Inv m) : Inv (m.moveStep delta) := by
  obtain ⟨h0, h1, h2, h3, h4⟩ := h
  have hT : 0 < m.total := total_pos m
  have hkeys : (m.moveStep delta).keys = m.keys := rfl
  have hlists : (m.moveStep delta).lists = m.lists := rfl
  have hsel : (m.moveStep delta).selectedList = m.selectedList := rfl
  have hoff : (m.moveStep delta).listStartOffset = m.listStartOffset := rfl
  have htot : (m.moveStep delta).total = m.total := total_congr _ _ hkeys hlists hsel
  have hnk : (m.moveStep delta).numKeys = m.numKeys := by simp [Model.numKeys, hkeys]
  have hcur : (m.moveStep delta).cursor =
      (if m.total ≤ m.cursor + delta then 0
       else if m.cursor + delta < 0 then m.total - 1 else m.cursor + delta) := rfl
  refine ⟨?_, ?_, ?_, ?_, ?_⟩
  · rw [hcur]
    split_ifs <;> omega
  · rw [hcur, htot]
    split_ifs <;> omega
  · rw [hoff, hnk]
    exact h2
  · rw [hsel]
    exact h3
  · rw [hsel, hnk]
    exact h4

lemma inputsCount_ge_one (m : Model) : 1 ≤ m.inputsCount := by
  unfold Model.inputsCount
  split <;> omega

lemma numKeys_add_one_le_total (m : Model) : m.numKeys + 1 ≤ m.total := by
  have h1 := numItems_nonneg m
  have h2 := inputsCount_ge_one m
  unfold Model.total
  omega

lemma newItemIdx_cases (m : Model) :
    (m.inputsCount = 2 ∧ m.newItemIdx = m.total - 2 ∧ 0 < m.numKeys) ∨
    (m.inputsCount = 1 ∧ m.newItemIdx = -1 ∧ ¬ 0 < m.numKeys) := by
  by_cases h : 0 < m.numKeys
  · exact Or.inl ⟨by simp [Model.inputsCount, h], by simp [Model.newItemIdx, Model.inputsCount, h], h⟩
  · exact Or.inr ⟨by simp [Model.inputsCount, h], by simp [Model.newItemIdx, Model.inputsCount, h], h⟩

lemma numKeys_pos_of_numItems_pos (m : Model) (h : 0 < m.numItems) : 0 < m.numKeys := by
  by_contra hc
  have hsel : m.selItems = [] := by
    unfold Model.selItems
    rw [if_neg hc]
  unfold Model.numItems at h
  rw [hsel] at h
  simp at h

lemma deleteKeySel_bounds (m : Model) (h0 : 0 ≤ m.cursor) (hs0 : 0 ≤ m.selectedList)
    (hs1 : m.selectedList < m.numKeys) (hlt : m.cursor < m.numKeys)
    (hz : (m.keys.eraseIdx m.cursor.toNat).length ≠ 0) :
    0 ≤ m.deleteKeySel ∧ m.deleteKeySel < ((m.keys.eraseIdx m.cursor.toNat).length : Int) := by
  have htn : m.cursor.toNat < m.keys.length := by
    unfold Model.numKeys at hlt
    omega
  have hlen := length_eraseIdx_int m.keys m.cursor.toNat htn
  unfold Model.deleteKeySel
  unfold Model.numKeys at hs1 hlt
  split_ifs <;> omega

lemma inv_deleteKeyStep (m : Model) (h : Inv m) (hlt : m.cursor < m.numKeys) :
    Inv m.deleteKeyStep := by
  have hinv := h
  obtain ⟨h0, h1, h2, h3, h4⟩ := h
  by_cases hz : (m.keys.eraseIdx m.cursor.toNat).length = 0
  · have hstep : m.deleteKeyStep = m.deleteKeyEmpty := by
      unfold Model.deleteKeyStep
      rw [if_pos hz]
    rw [hstep]
    have hnk : m.deleteKeyEmpty.numKeys = ((m.keys.eraseIdx m.cursor.toNat).length : Int) := rfl
    have hni := numItems_nonneg m.deleteKeyEmpty
    have hic := inputsCount_ge_one m.deleteKeyEmpty
    have htot : m.deleteKeyEmpty.total =
        m.deleteKeyEmpty.numKeys + m.deleteKeyEmpty.numItems + m.deleteKeyEmpty.inputsCount := rfl
    refine ⟨le_refl 0, ?_, ?_, le_refl 0, ?_⟩
    · show (0 : Int) < m.deleteKeyEmpty.total
      rw [htot, hnk]
      omega
    · show (0 : Int) = m.deleteKeyEmpty.numKeys
      rw [hnk]
      omega
    · rw [hnk]
      intro hc
      omega
  · have hstep : m.deleteKeyStep = m.deleteKeySome := by
      unfold Model.deleteKeyStep
      rw [if_neg hz]
    rw [hstep]
    have hb := deleteKeySel_bounds m h0 h3 (h4 (lt_of_le_of_lt h0 hlt)) hlt hz
    have hnk : m.deleteKeySome.numKeys = ((m.keys.eraseIdx m.cursor.toNat).length : Int) := rfl
    have htot := numKeys_add_one_le_total m.deleteKeySome
    rw [hnk] at htot
    refine ⟨hb.1, ?_, ?_, hb.1, ?_⟩
    · show m.deleteKeySel < m.deleteKeySome.total
      omega
    · show ((m.keys.eraseIdx m.cursor.toNat).length : Int) = m.deleteKeySome.numKeys
      rw [hnk]
    · rw [hnk]
      intro _
      exact hb.2

lemma inv_deleteItemStep (m : Model) (h : Inv m)
    (hi0 : 0 ≤ m.getItemCursor) (hi1 : m.getItemCursor < m.numItems) :
    Inv m.deleteItemStep := by
  obtain ⟨g0, g1, g2, g3, g4⟩ := h
  have hipos : 0 < m.numItems := lt_of_le_of_lt hi0 hi1
  have hkpos : 0 < m.numKeys := numKeys_pos_of_numItems_pos m hipos
  have htn : m.getItemCursor.toNat < m.selItems.length := by
    unfold Model.numItems at hi1
    omega
  have hlen := length_eraseIdx_int m.selItems m.getItemCursor.toNat htn
  have hkeys : m.deleteItemStep.keys = m.keys := rfl
  have hsel : m.deleteItemStep.selectedList = m.selectedList := rfl
  have hoff : m.deleteItemStep.listStartOffset = m.listStartOffset := rfl
  have hlists : m.deleteItemStep.lists =
      insertL m.selectedKey (m.selItems.eraseIdx m.getItemCursor.toNat) m.lists := rfl
  have hcur : m.deleteItemStep.cursor =
      ((m.selItems.eraseIdx m.getItemCursor.toNat).length : Int) - 1 + m.listStartOffset := rfl
  have hnk : m.deleteItemStep.numKeys = m.numKeys := by simp [Model.numKeys, hkeys]
  have hsi : m.deleteItemStep.selItems = m.selItems.eraseIdx m.getItemCursor.toNat :=
    selItems_eq_insert hkeys hsel hlists hkpos
  have hniI : m.deleteItemStep.numItems = m.numItems - 1 := by
    unfold Model.numItems
    rw [hsi, hlen]
  have hic : m.deleteItemStep.inputsCount = 2 := by
    simp [Model.inputsCount, hnk, hkpos]
  have htot : m.deleteItemStep.total = m.numKeys + (m.numItems - 1) + 2 := by
    unfold Model.total
    rw [hnk, hniI, hic]
  have hmi : m.numItems = (m.selItems.length : Int) := rfl
  refine ⟨?_, ?_, ?_, ?_, ?_⟩
  · rw [hcur, hlen, g2]
    omega
  · rw [hcur, hlen, g2, htot]
    omega
  · rw [hoff, hnk]
    exact g2
  · rw [hsel]
    exact g3
  · rw [hsel, hnk]
    exact g4

lemma inv_selectListStep (m : Model) (h : Inv m) (hb : m.cursor < m.numKeys) :
    Inv m.selectListStep := by
  obtain ⟨g0, g1, g2, g3, g4⟩ := h
  have hnk : m.selectListStep.numKeys = m.numKeys := rfl
  have hcur : m.selectListStep.cursor = m.cursor := rfl
  have htot := numKeys_add_one_le_total m.selectListStep
  rw [hnk] at htot
  exact ⟨g0, by rw [hcur]; omega, g2, g0, fun _ => hb⟩

lemma inv_toggleItemStep (m : Model) (h : Inv m)
    (hi0 : 0 ≤ m.getItemCursor) (hi1 : m.getItemCursor < m.numItems) :
    Inv m.toggleItemStep := by
  obtain ⟨g0, g1, g2, g3, g4⟩ := h
  have hipos : 0 < m.numItems := lt_of_le_of_lt hi0 hi1
  have hkpos : 0 < m.numKeys := numKeys_pos_of_numItems_pos m hipos
  have hkeys : m.toggleItemStep.keys = m.keys := rfl
  have hsel : m.toggleItemStep.selectedList = m.selectedList := rfl
  have hlists : m.toggleItemStep.lists =
      insertL m.selectedKey (toggleAt m.selItems m.getItemCursor.toNat) m.lists := rfl
  have hsi : m.toggleItemStep.selItems = toggleAt m.selItems m.getItemCursor.toNat :=
    selItems_eq_insert hkeys hsel hlists hkpos
  have hni : m.toggleItemStep.numItems = m.numItems := by
    unfold Model.numItems
    rw [hsi, length_toggleAt]
  have hnk : m.toggleItemStep.numKeys = m.numKeys := rfl
  have hic : m.toggleItemStep.inputsCount = m.inputsCount := by
    unfold Model.inputsCount
    rw [hnk]
  have htot : m.toggleItemStep.total = m.total := by
    unfold Model.total
    rw [hnk, hni, hic]
  exact ⟨g0, by rw [htot]; exact g1, g2, g3, g4⟩

lemma inv_addItemStep (m : Model) (h : Inv m)
    (hb : 0 ≤ m.newItemIdx ∧ m.cursor = m.newItemIdx) : Inv m.addItemStep := by
  obtain ⟨g0, g1, g2, g3, g4⟩ := h
  rcases newItemIdx_cases m with hcase | hcase
  · obtain ⟨hic2, hidx, hkpos⟩ := hcase
    have hkeys : m.addItemStep.keys = m.keys := rfl
    have hsel : m.addItemStep.selectedList = m.selectedList := rfl
    have hlists : m.addItemStep.lists =
        insertL m.selectedKey (m.selItems ++ [⟨trimSpace m.textInput.text, false⟩]) m.lists := rfl
    have hsi : m.addItemStep.selItems = m.selItems ++ [⟨trimSpace m.textInput.text, false⟩] :=
      selItems_eq_insert hkeys hsel hlists hkpos
    have hni : m.addItemStep.numItems = m.numItems + 1 := by
      unfold Model.numItems
      rw [hsi]
      simp
    have hnk : m.addItemStep.numKeys = m.numKeys := rfl
    have hic : m.addItemStep.inputsCount = m.inputsCount := by
      unfold Model.inputsCount
      rw [hnk]
    have htot : m.addItemStep.total = m.total + 1 := by
      unfold Model.total
      rw [hnk, hni, hic]
      ring
    have hcur : m.addItemStep.cursor = m.cursor + 1 := rfl
    refine ⟨?_, ?_, g2, g3, g4⟩
    · rw [hcur]
      omega
    · rw [hcur, htot, hb.2, hidx]
      omega
  · exact absurd hb.1 (by rw [hcase.2.1]; omega)

lemma inv_addListStep (m : Model) (h : Inv m) : Inv m.addListStep := by
  obtain ⟨g0, g1, g2, g3, g4⟩ := h
  have hkeys : m.addListStep.keys = m.keys ++ [trimSpace m.newListTextInput.text] := rfl
  have hnk : m.addListStep.numKeys = m.numKeys + 1 := by
    unfold Model.numKeys
    rw [hkeys]
    simp
  have hkpos : 0 < m.addListStep.numKeys := by
    have := numKeys_nonneg m
    omega
  have hsknat : ((m.keys.length : Int)).toNat = m.keys.length := by omega
  have hsk : m.addListStep.selectedKey = trimSpace m.newListTextInput.text := by
    unfold Model.selectedKey
    show (m.keys ++ [trimSpace m.newListTextInput.text]).getD
        ((m.keys.length : Int)).toNat "" = trimSpace m.newListTextInput.text
    rw [hsknat]
    exact getD_append_last _ _ _
  have hsi : m.addListStep.selItems = [] := by
    unfold Model.selItems
    rw [if_pos hkpos, hsk]
    show (lookupL (trimSpace m.newListTextInput.text)
        (insertL (trimSpace m.newListTextInput.text) [] m.lists)).getD [] = []
    rw [lookupL_insertL_self]
    rfl
  have hni : m.addListStep.numItems = 0 := by
    unfold Model.numItems
    rw [hsi]
    rfl
  have hic : m.addListStep.inputsCount = 2 := by
    unfold Model.inputsCount
    rw [if_pos hkpos]
  have htot : m.addListStep.total = m.numKeys + 3 := by
    unfold Model.total
    rw [hnk, hni, hic]
    ring
  have hcur : m.addListStep.cursor = (m.keys.length : Int) + 1 := rfl
  have hoff : m.addListStep.listStartOffset = (m.keys.length : Int) + 1 := rfl
  have hsel : m.addListStep.selectedList = (m.keys.length : Int) := rfl
  have hmk : m.numKeys = (m.keys.length : Int) := rfl
  refine ⟨?_, ?_, ?_, ?_, ?_⟩
  · rw [hcur]
    omega
  · rw [hcur, htot, hmk]
    omega
  · rw [hoff, hnk, hmk]
  · rw [hsel]
    omega
  · rw [hsel, hnk, hmk]
    intro _
    omega

lemma inv_enterStep (m : Model) (h : Inv m) : Inv m.enterStep := by
  unfold Model.enterStep
  split_ifs with hb1 hb2 hb3 hb4 hb5 hb6
  · exact inv_selectListStep m h hb1
  · exact inv_toggleItemStep m h hb2.1 hb2.2
  · exact h
  · exact inv_addItemStep m h hb3
  · exact h
  · exact inv_addListStep m h
  · exact h

lemma inv_spaceStep (m : Model) (h : Inv m) : Inv m.spaceStep := by
  unfold Model.spaceStep
  split_ifs with hb
  · exact inv_toggleItemStep m h hb.1 hb.2
  · exact h

lemma inv_step (m : Model) (msg : Msg) (h : Inv m) : Inv (m.step msg).1 := by
  cases msg with
  | ctrlC => exact h
  | q =>
      simp only [Model.step]
      split_ifs with hq
      · exact inv_fallthroughEdit m .q h
      · exact h
  | d =>
      simp only [Model.step]
      split_ifs with hd1 hd2
      · exact inv_deleteKeyStep m h hd1
      · exact inv_fallthroughEdit m .d h
      · push_neg at hd2
        exact inv_fallthroughEdit _ .d (inv_deleteItemStep m h hd2.1 hd2.2)
  | up => exact inv_moveStep m (-1) h
  | shiftTab => exact inv_moveStep m (-1) h
  | down => exact inv_moveStep m 1 h
  | tab => exact inv_moveStep m 1 h
  | enter => exact inv_enterStep m h
  | space => exact inv_fallthroughEdit _ .space (inv_spaceStep m h)
  | char c => exact inv_fallthroughEdit m (.char c) h

lemma inv_initialModel (lists : Lists) (keys : List String) :
    Inv (initialModel lists keys) := by
  set M := initialModel lists keys with hM
  have hkeys : M.keys = keys := by
    rw [hM]
    simp [initialModel]
  have hselM : M.selectedList = 0 := by
    rw [hM]
    simp [initialModel]
  have hoff : M.listStartOffset = (keys.length : Int) := by
    rw [hM]
    simp [initialModel]
  have hnk : M.numKeys = (keys.length : Int) := by
    unfold Model.numKeys
    rw [hkeys]
  by_cases hk : 0 < keys.length
  · have hcur : M.cursor =
        (((lookupL (keys.getD 0 "") lists).getD []).length : Int) + (keys.length : Int) := by
      rw [hM]
      simp [initialModel, hk]
    have hsi : M.selItems = (lookupL (keys.getD 0 "") lists).getD [] := by
      unfold Model.selItems Model.selectedKey
      rw [hnk, hkeys, hselM]
      rw [if_pos (show (0 : Int) < (keys.length : Int) by exact_mod_cast hk)]
      rfl
    have hni : M.numItems = (((lookupL (keys.getD 0 "") lists).getD []).length : Int) := by
      unfold Model.numItems
      rw [hsi]
    have hic : M.inputsCount = 2 := by
      unfold Model.inputsCount
      rw [hnk]
      rw [if_pos (show (0 : Int) < (keys.length : Int) by exact_mod_cast hk)]
    have htot : M.total =
        (keys.length : Int) + (((lookupL (keys.getD 0 "") lists).getD []).length : Int) + 2 := by
      unfold Model.total
      rw [hnk, hni, hic]
    refine ⟨?_, ?_, ?_, ?_, ?_⟩
    · rw [hcur]
      positivity
    · rw [hcur, htot]
      omega
    · rw [hoff, hnk]
    · rw [hselM]
    · rw [hselM, hnk]
      intro _
      exact_mod_cast hk
  · have hcur : M.cursor = 0 := by
      rw [hM]
      simp [initialModel, hk]
    refine ⟨?_, ?_, ?_, ?_, ?_⟩
    · rw [hcur]
    · rw [hcur]
      exact total_pos M
    · rw [hoff, hnk]
    · rw [hselM]
    · rw [hselM, hnk]
      intro hc
      omega

lemma inv_reachable {m : Model} (h : Reachable m) : Inv m := by
  induction h with
  | init lists keys => exact inv_initialModel lists keys
  | next m msg _ ih => exact inv_step m msg ih

lemma reachable_applyEvents (m : Model) (evs : List Msg) (h : Reachable m) :
    Reachable (applyEvents m evs) := by
  induction evs generalizing m with
  | nil => exact h
  | cons e rest ih => exact ih _ (Reachable.next m e h)

/-! ### Move-branch anatomy -/

lemma moveStep_cursor (m : Model) (delta : Int) :
    (m.moveStep delta).cursor =
      (if m.total ≤ m.cursor + delta then 0
       else if m.cursor + delta < 0 then m.total - 1
       else m.cursor + delta) := rfl

lemma moveStep_textFocused (m : Model) (delta : Int) :
    (m.moveStep delta).textInput.focused =
      decide (0 ≤ m.newItemIdx ∧ m.cursor + delta = m.newItemIdx) := by
  simp only [Model.moveStep]
  split_ifs with h1 h2
  · exact (decide_eq_true h1).symm
  · exact (decide_eq_false h1).symm
  · exact (decide_eq_false h1).symm

lemma moveStep_listFocused (m : Model) (delta : Int) :
    (m.moveStep delta).newListTextInput.focused =
      decide (¬ (0 ≤ m.newItemIdx ∧ m.cursor + delta = m.newItemIdx) ∧
        m.cursor + delta = m.newListIdx) := by
  simp only [Model.moveStep]
  split_ifs with h1 h2
  · exact (decide_eq_false (fun hc => hc.1 h1)).symm
  · exact (decide_eq_true ⟨h1, h2⟩).symm
  · exact (decide_eq_false (fun hc => h2 hc.2)).symm

lemma moveStep_texts (m : Model) (delta : Int) :
    (m.moveStep delta).textInput.text = m.textInput.text ∧
    (m.moveStep delta).newListTextInput.text = m.newListTextInput.text := by
  simp only [Model.moveStep]
  split_ifs <;> exact ⟨rfl, rfl⟩

lemma moveStep_blur_of_wrap (m : Model) (delta : Int)
    (h : m.cursor + delta < 0 ∨ m.total ≤ m.cursor + delta) :
    (m.moveStep delta).textInput.focused = false ∧
    (m.moveStep delta).newListTextInput.focused = false := by
  have hT := total_pos m
  have hnl : m.newListIdx = m.total - 1 := rfl
  have hnn := numKeys_nonneg m
  have hin := numItems_nonneg m
  have htoteq : m.total = m.numKeys + m.numItems + m.inputsCount := rfl
  rw [moveStep_textFocused, moveStep_listFocused]
  rcases newItemIdx_cases m with ⟨hic, hidx, _⟩ | ⟨hic, hidx, _⟩ <;>
    constructor <;> simp only [decide_eq_false_iff_not] <;> rintro ⟨ha, hb⟩ <;> omega

/-- C1: for every reachable state the cursor lies in `[0, total - 1]`, where
`total` is the key count plus the selected list's item count plus the number
of input rows (2 when a key exists, else 1), recomputed on the current
state. -/
theorem cursor_in_range_of_reachable (m : Model) (h : Reachable m) :
    0 ≤ m.cursor ∧ m.cursor < m.total ∧
    m.total = m.numKeys + m.numItems + (if 0 < m.numKeys then 2 else 1) := by
  obtain ⟨h0, h1, _, _, _⟩ := inv_reachable h
  exact ⟨h0, h1, rfl⟩

/-- C1 witness: the invariant evaluated on a concrete reachable state. -/
theorem cursor_in_range_witness :
    0 ≤ (applyEvents (initialModel [] []) dupTrace).cursor ∧
    (applyEvents (initialModel [] []) dupTrace).cursor <
      (applyEvents (initialModel [] []) dupTrace).total ∧
    (applyEvents (initialModel [] []) dupTrace).total =
      (applyEvents (initialModel [] []) dupTrace).numKeys +
      (applyEvents (initialModel [] []) dupTrace).numItems +
      (if 0 < (applyEvents (initialModel [] []) dupTrace).numKeys then 2 else 1) :=
  cursor_in_range_of_reachable _ (reachable_applyEvents _ _ (Reachable.init [] []))

/-- C10: on every reachable state the cached `listStartOffset` equals the
current number of keys. -/
theorem listStartOffset_eq_numKeys (m : Model) (h : Reachable m) :
    m.listStartOffset = (m.keys.length : Int) :=
  (inv_reachable h).2.2.1

/-- C10 witness: the offset invariant evaluated on a concrete reachable
state holding one key. -/
theorem listStartOffset_witness :
    (applyEvents (initialModel [] []) dupTrace).listStartOffset =
      ((applyEvents (initialModel [] []) dupTrace).keys.length : Int) :=
  listStartOffset_eq_numKeys _ (reachable_applyEvents _ _ (Reachable.init [] []))

/-- C2 (amended): a move event adds or subtracts 1 and wraps modulo total,
but focus is recomputed from the PRE-wrap cursor value, not the final one:
the add-item field ends focused exactly when the un-wrapped cursor equals
the add-item row index, the add-list field exactly when the un-wrapped
cursor equals the add-list row index (and not the add-item row); hence both
fields end blurred whenever the move wrapped, and at most one field holds
focus, determined by the un-wrapped cursor. -/
theorem move_wrap_focus (m : Model) (msg : Msg)
    (h : msg = Msg.up ∨ msg = Msg.shiftTab ∨ msg = Msg.down ∨ msg = Msg.tab) :
    (m.step msg).1.cursor =
      (if m.total ≤ m.cursor + moveDelta msg then 0
       else if m.cursor + moveDelta msg < 0 then m.total - 1
       else m.cursor + moveDelta msg) ∧
    ((m.step msg).1.textInput.focused = true ↔
      (0 ≤ m.newItemIdx ∧ m.cursor + moveDelta msg = m.newItemIdx)) ∧
    ((m.step msg).1.newListTextInput.focused = true ↔
      (¬ (0 ≤ m.newItemIdx ∧ m.cursor + moveDelta msg = m.newItemIdx) ∧
        m.cursor + moveDelta msg = m.newListIdx)) ∧
    ((m.step msg).1.textInput.focused = false ∨
      (m.step msg).1.newListTextInput.focused = false) ∧
    ((m.cursor + moveDelta msg < 0 ∨ m.total ≤ m.cursor + moveDelta msg) →
      (m.step msg).1.textInput.focused = false ∧
      (m.step msg).1.newListTextInput.focused = false) ∧
    (m.step msg).1.keys = m.keys ∧ (m.step msg).1.lists = m.lists ∧
    (m.step msg).1.selectedList = m.selectedList ∧
    (m.step msg).1.listStartOffset = m.listStartOffset := by
  have main : ∀ delta : Int,
      (m.moveStep delta).cursor =
        (if m.total ≤ m.cursor + delta then 0
         else if m.cursor + delta < 0 then m.total - 1
         else m.cursor + delta) ∧
      ((m.moveStep delta).textInput.focused = true ↔
        (0 ≤ m.newItemIdx ∧ m.cursor + delta = m.newItemIdx)) ∧
      ((m.moveStep delta).newListTextInput.focused = true ↔
        (¬ (0 ≤ m.newItemIdx ∧ m.cursor + delta = m.newItemIdx) ∧
          m.cursor + delta = m.newListIdx)) ∧
      ((m.moveStep delta).textInput.focused = false ∨
        (m.moveStep delta).newListTextInput.focused = false) ∧
      ((m.cursor + delta < 0 ∨ m.total ≤ m.cursor + delta) →
        (m.moveStep delta).textInput.focused = false ∧
        (m.moveStep delta).newListTextInput.focused = false) ∧
      (m.moveStep delta).keys = m.keys ∧ (m.moveStep delta).lists = m.lists ∧
      (m.moveStep delta).selectedList = m.selectedList ∧
      (m.moveStep delta).listStartOffset = m.listStartOffset := by
    intro delta
    refine ⟨moveStep_cursor m delta, ?_, ?_, ?_, moveStep_blur_of_wrap m delta,
      rfl, rfl, rfl, rfl⟩
    · rw [moveStep_textFocused]
      exact decide_eq_true_iff
    · rw [moveStep_listFocused]
      exact decide_eq_true_iff
    · by_cases hA : 0 ≤ m.newItemIdx ∧ m.cursor + delta = m.newItemIdx
      · right
        rw [moveStep_listFocused]
        exact decide_eq_false (fun hc => hc.1 hA)
      · left
        rw [moveStep_textFocused]
        exact decide_eq_false hA
  rcases h with rfl | rfl | rfl | rfl
  · exact main (-1)
  · exact main (-1)
  · exact main 1
  · exact main 1

/-- C2 witness: a non-wrapping next-move (from the key row of a one-list
model) lands on the add-item row and focuses the add-item field. -/
theorem move_wrap_focus_witness :
    (moveCounterModel.step Msg.down).1.cursor = 1 ∧
    (moveCounterModel.step Msg.down).1.textInput.focused = true ∧
    (moveCounterModel.step Msg.down).1.newListTextInput.focused = false := by
  have h := move_wrap_focus moveCounterModel Msg.down (Or.inr (Or.inr (Or.inl rfl)))
  refine ⟨?_, ?_, ?_⟩
  · rw [h.1]
    decide
  · exact h.2.1.mpr (by decide)
  · have := h.2.2.1
    by_cases hb : (moveCounterModel.step Msg.down).1.newListTextInput.focused = true
    · exact absurd (this.mp hb) (by decide)
    · simpa using hb

/-- C2 counterexample: moving previous from row 0 of a one-list model wraps
the cursor onto the add-list row, yet the add-list field ends blurred; the
claim's "after wrapping the focus is recomputed from the final cursor value"
fails at this input (focus is computed before the wrap). -/
theorem move_wrap_focus_counterexample :
    (moveCounterModel.step Msg.up).1.cursor = (moveCounterModel.step Msg.up).1.newListIdx ∧
    (moveCounterModel.step Msg.up).1.newListTextInput.focused = false := by
  decide

/-! ### Text-input fall-through anatomy -/

lemma typeChar_focused (c : Char) (f : TextField) : (typeChar c f).focused = f.focused := by
  unfold typeChar
  split <;> rfl

lemma typeChar_text (c : Char) (f : TextField) :
    (typeChar c f).text = (if f.focused then f.text.push c else f.text) := by
  unfold typeChar
  split_ifs <;> rfl

/-- C4 (amended): when the cursor addresses an item row of the selected
list, the delete key removes exactly that item and sets the cursor to
(new item count - 1) + K with K the number of keys; when the cursor
addresses neither an item row nor a key row, the delete key changes no data
or navigation state (keys, lists, cursor, selection, offset, focus), but its
character is delivered as ordinary text input to whichever input field is
focused. -/
theorem delete_item_spec (m : Model) (hoff : m.listStartOffset = m.numKeys) :
    ((0 ≤ m.getItemCursor ∧ m.getItemCursor < m.numItems) →
      (lookupL m.selectedKey (m.step Msg.d).1.lists =
          some (m.selItems.eraseIdx m.getItemCursor.toNat) ∧
        (∀ k, k ≠ m.selectedKey →
          lookupL k (m.step Msg.d).1.lists = lookupL k m.lists) ∧
        (m.step Msg.d).1.cursor =
          ((m.selItems.eraseIdx m.getItemCursor.toNat).length : Int) - 1 + m.numKeys ∧
        (m.step Msg.d).1.keys = m.keys ∧
        (m.step Msg.d).1.selectedList = m.selectedList ∧
        (m.step Msg.d).1.listStartOffset = m.listStartOffset)) ∧
    ((¬ m.cursor < m.numKeys ∧ ¬ (0 ≤ m.getItemCursor ∧ m.getItemCursor < m.numItems)) →
      ((m.step Msg.d).1.keys = m.keys ∧ (m.step Msg.d).1.lists = m.lists ∧
        (m.step Msg.d).1.cursor = m.cursor ∧
        (m.step Msg.d).1.selectedList = m.selectedList ∧
        (m.step Msg.d).1.listStartOffset = m.listStartOffset ∧
        (m.step Msg.d).1.textInput.focused = m.textInput.focused ∧
        (m.step Msg.d).1.newListTextInput.focused = m.newListTextInput.focused ∧
        (m.step Msg.d).1.textInput.text =
          (if m.textInput.focused then m.textInput.text.push 'd' else m.textInput.text) ∧
        (m.step Msg.d).1.newListTextInput.text =
          (if m.newListTextInput.focused then m.newListTextInput.text.push 'd'
           else m.newListTextInput.text))) := by
  constructor
  · rintro ⟨hp0, hp1⟩
    have hnc : ¬ m.cursor < m.numKeys := by
      unfold Model.getItemCursor at hp0
      omega
    have hx : ¬ (m.getItemCursor < 0 ∨ m.numItems ≤ m.getItemCursor) := by omega
    have hstep : (m.step Msg.d).1 = m.deleteItemStep.fallthroughEdit Msg.d := by
      simp only [Model.step]
      rw [if_neg hnc, if_neg hx]
    rw [hstep]
    refine ⟨lookupL_insertL_self _ _ _, fun k hk => lookupL_insertL_ne _ _ hk, ?_, rfl, rfl, rfl⟩
    show ((m.selItems.eraseIdx m.getItemCursor.toNat).length : Int) - 1 + m.listStartOffset = _
    rw [hoff]
  · rintro ⟨hn1, hn2⟩
    have hx : m.getItemCursor < 0 ∨ m.numItems ≤ m.getItemCursor := by omega
    have hstep : (m.step Msg.d).1 = m.fallthroughEdit Msg.d := by
      simp only [Model.step]
      rw [if_neg hn1, if_pos hx]
    rw [hstep]
    exact ⟨rfl, rfl, rfl, rfl, rfl, typeChar_focused 'd' _, typeChar_focused 'd' _,
      typeChar_text 'd' _, typeChar_text 'd' _⟩

/-- C4 witness: the spec's delete-item scenario — deleting "eggs" from
["milk","eggs"] leaves ["milk"] with the cursor on the "milk" row. -/
theorem delete_item_witness :
    lookupL "Groceries" (deleteItemScenario.step Msg.d).1.lists =
      some [⟨"milk", false⟩] ∧
    (deleteItemScenario.step Msg.d).1.cursor = 1 := by
  have h := (delete_item_spec deleteItemScenario (by decide)).1 (by decide)
  refine ⟨?_, ?_⟩
  · exact h.1
  · rw [h.2.2.1]
    decide

/-- C4 counterexample: with the cursor on the add-item row and that field
focused, the delete key is typed into the field — the state changes, so the
delete event is not a no-op as the claim asserts. -/
theorem delete_item_noop_counterexample :
    ¬ deleteTypeModel.cursor < deleteTypeModel.numKeys ∧
    ¬ (0 ≤ deleteTypeModel.getItemCursor ∧
        deleteTypeModel.getItemCursor < deleteTypeModel.numItems) ∧
    (deleteTypeModel.step Msg.d).1 ≠ deleteTypeModel := by
  decide

/-- C5: deleting a key row removes that key and its mapping entry; if no
keys remain, selection and cursor reset to 0 and the add-list field gains
focus; otherwise the selection moves to the previous key when the selected
one was deleted (clamped at 0), shifts left by one when a preceding key was
deleted, and stays put otherwise, the cursor lands on the selected key row
(a valid key row), and both input fields are blurred. -/
theorem delete_list_spec (m : Model) (h0 : 0 ≤ m.cursor) (h1 : m.cursor < m.numKeys)
    (hs0 : 0 ≤ m.selectedList) (hs1 : m.selectedList < m.numKeys) :
    (m.step Msg.d).1.keys = m.keys.eraseIdx m.cursor.toNat ∧
    (m.step Msg.d).1.lists = eraseL (m.keys.getD m.cursor.toNat "") m.lists ∧
    (m.numKeys = 1 →
      (m.step Msg.d).1.selectedList = 0 ∧ (m.step Msg.d).1.cursor = 0 ∧
      (m.step Msg.d).1.newListTextInput.focused = true ∧
      (m.step Msg.d).1.textInput.focused = false) ∧
    (1 < m.numKeys →
      ((m.cursor = m.selectedList →
          (m.step Msg.d).1.selectedList = max 0 (m.selectedList - 1)) ∧
       (m.cursor < m.selectedList →
          (m.step Msg.d).1.selectedList = m.selectedList - 1) ∧
       (m.selectedList < m.cursor →
          (m.step Msg.d).1.selectedList = m.selectedList) ∧
       (m.step Msg.d).1.cursor = (m.step Msg.d).1.selectedList ∧
       0 ≤ (m.step Msg.d).1.cursor ∧
       (m.step Msg.d).1.cursor < (m.step Msg.d).1.numKeys ∧
       (m.step Msg.d).1.textInput.focused = false ∧
       (m.step Msg.d).1.newListTextInput.focused = false)) := by
  have htn : m.cursor.toNat < m.keys.length := by
    unfold Model.numKeys at h1
    omega
  have hlen := length_eraseIdx_int m.keys m.cursor.toNat htn
  have hstep : (m.step Msg.d).1 = m.deleteKeyStep := by
    simp only [Model.step]
    rw [if_pos h1]
  have hkeys : m.deleteKeyStep.keys = m.keys.eraseIdx m.cursor.toNat := by
    unfold Model.deleteKeyStep
    split <;> rfl
  have hlists : m.deleteKeyStep.lists = eraseL (m.keys.getD m.cursor.toNat "") m.lists := by
    unfold Model.deleteKeyStep
    split <;> rfl
  have hmk : m.numKeys = (m.keys.length : Int) := rfl
  rw [hstep]
  refine ⟨hkeys, hlists, ?_, ?_⟩
  · intro hone
    have hz : (m.keys.eraseIdx m.cursor.toNat).length = 0 := by omega
    have hE : m.deleteKeyStep = m.deleteKeyEmpty := by
      unfold Model.deleteKeyStep
      rw [if_pos hz]
    rw [hE]
    exact ⟨rfl, rfl, rfl, rfl⟩
  · intro hmore
    have hz : (m.keys.eraseIdx m.cursor.toNat).length ≠ 0 := by omega
    have hS : m.deleteKeyStep = m.deleteKeySome := by
      unfold Model.deleteKeyStep
      rw [if_neg hz]
    rw [hS]
    have hb := deleteKeySel_bounds m h0 hs0 hs1 h1 hz
    have hselS : m.deleteKeySome.selectedList = m.deleteKeySel := rfl
    have hnkS : m.deleteKeySome.numKeys = ((m.keys.eraseIdx m.cursor.toNat).length : Int) := rfl
    refine ⟨?_, ?_, ?_, rfl, ?_, ?_, rfl, rfl⟩
    · intro hc
      rw [hselS]
      unfold Model.deleteKeySel
      rw [if_pos hc]
      split_ifs <;> omega
    · intro hc
      rw [hselS]
      unfold Model.deleteKeySel
      rw [if_neg (by omega), if_pos hc]
    · intro hc
      rw [hselS]
      unfold Model.deleteKeySel
      rw [if_neg (by omega), if_neg (by omega)]
    · show 0 ≤ m.deleteKeySel
      exact hb.1
    · show m.deleteKeySel < m.deleteKeySome.numKeys
      rw [hnkS]
      exact hb.2

/-- C5 witness: the spec's delete-list scenario — lists [A, B] with B
selected; deleting A's key row leaves [B], selection 0, cursor 0. -/
theorem delete_list_witness :
    (deleteListScenario.step Msg.d).1.keys = ["B"] ∧
    (deleteListScenario.step Msg.d).1.selectedList = 0 ∧
    (deleteListScenario.step Msg.d).1.cursor = 0 := by
  have h := delete_list_spec deleteListScenario (by decide) (by decide) (by decide) (by decide)
  have hm := h.2.2.2 (by decide)
  refine ⟨?_, ?_, ?_⟩
  · rw [h.1]
    decide
  · rw [hm.2.1 (by decide)]
    decide
  · rw [hm.2.2.2.1, hm.2.1 (by decide)]
    decide

/-! ### Add-list anatomy -/

lemma addListStep_numKeys (m : Model) :
    m.addListStep.numKeys = (m.keys.length : Int) + 1 := by
  unfold Model.numKeys
  show ((m.keys ++ [trimSpace m.newListTextInput.text]).length : Int) = _
  simp

lemma addListStep_selItems (m : Model) : m.addListStep.selItems = [] := by
  have hkpos : 0 < m.addListStep.numKeys := by
    rw [addListStep_numKeys]
    have : (0 : Int) ≤ (m.keys.length : Int) := by positivity
    omega
  have hsknat : ((m.keys.length : Int)).toNat = m.keys.length := by omega
  have hsk : m.addListStep.selectedKey = trimSpace m.newListTextInput.text := by
    unfold Model.selectedKey
    show (m.keys ++ [trimSpace m.newListTextInput.text]).getD
        ((m.keys.length : Int)).toNat "" = _
    rw [hsknat]
    exact getD_append_last _ _ _
  unfold Model.selItems
  rw [if_pos hkpos, hsk]
  show (lookupL (trimSpace m.newListTextInput.text)
      (insertL (trimSpace m.newListTextInput.text) [] m.lists)).getD [] = []
  rw [lookupL_insertL_self]
  rfl

lemma addListStep_newItemIdx (m : Model) :
    m.addListStep.newItemIdx = (m.keys.length : Int) + 1 := by
  have hkpos : 0 < m.addListStep.numKeys := by
    rw [addListStep_numKeys]
    have : (0 : Int) ≤ (m.keys.length : Int) := by positivity
    omega
  have hni : m.addListStep.numItems = 0 := by
    unfold Model.numItems
    rw [addListStep_selItems]
    rfl
  have hic : m.addListStep.inputsCount = 2 := by
    unfold Model.inputsCount
    rw [if_pos hkpos]
  unfold Model.newItemIdx Model.total
  rw [hic, if_pos rfl, addListStep_numKeys, hni]
  ring

lemma enterStep_branch_facts (m : Model) (hoff : m.listStartOffset = m.numKeys)
    (hc : m.cursor = m.newListIdx) :
    ¬ m.cursor < m.numKeys ∧
    ¬ (0 ≤ m.getItemCursor ∧ m.getItemCursor < m.numItems) ∧
    ¬ (0 ≤ m.newItemIdx ∧ m.cursor = m.newItemIdx) := by
  have hnl : m.newListIdx = m.total - 1 := rfl
  have htl := numKeys_add_one_le_total m
  have htoteq : m.total = m.numKeys + m.numItems + m.inputsCount := rfl
  have hic1 := inputsCount_ge_one m
  have hicur : m.getItemCursor = m.cursor - m.listStartOffset := rfl
  rcases newItemIdx_cases m with ⟨hic, hidx, _⟩ | ⟨hic, hidx, _⟩ <;>
    refine ⟨by omega, ?_, by omega⟩ <;> omega

/-- C6: confirming the add-list row with non-blank trimmed text appends the
new key with an empty item list, selects it (last key index), moves the
cursor onto the new list's add-item row, clears the add-list field, and
focuses the add-item field. -/
theorem add_list_spec (m : Model) (hoff : m.listStartOffset = m.numKeys)
    (hc : m.cursor = m.newListIdx) (ht : trimSpace m.newListTextInput.text ≠ "") :
    (m.step Msg.enter).1.keys = m.keys ++ [trimSpace m.newListTextInput.text] ∧
    lookupL (trimSpace m.newListTextInput.text) (m.step Msg.enter).1.lists = some [] ∧
    (m.step Msg.enter).1.selectedList = ((m.step Msg.enter).1.keys.length : Int) - 1 ∧
    (m.step Msg.enter).1.cursor = (m.step Msg.enter).1.newItemIdx ∧
    (m.step Msg.enter).1.newListTextInput = ⟨false, ""⟩ ∧
    (m.step Msg.enter).1.textInput.focused = true ∧
    (m.step Msg.enter).1.textInput.text = m.textInput.text := by
  obtain ⟨hb1, hb2, hb3⟩ := enterStep_branch_facts m hoff hc
  have hstep : (m.step Msg.enter).1 = m.addListStep := by
    show m.enterStep = m.addListStep
    unfold Model.enterStep
    rw [if_neg hb1, if_neg hb2, if_neg hb3, if_pos hc, if_neg ht]
  rw [hstep]
  refine ⟨rfl, lookupL_insertL_self _ _ _, ?_, ?_, rfl, rfl, rfl⟩
  · show (m.keys.length : Int) =
      ((m.keys ++ [trimSpace m.newListTextInput.text]).length : Int) - 1
    simp
  · rw [addListStep_newItemIdx]
    rfl

/-- C6 witness: the spec's scenario — zero lists, submitting "Groceries"
yields one key with an empty list, selection 0, cursor on the add-item row,
add-item field focused. -/
theorem add_list_witness :
    (addListScenario.step Msg.enter).1.keys = ["Groceries"] ∧
    lookupL "Groceries" (addListScenario.step Msg.enter).1.lists = some [] ∧
    (addListScenario.step Msg.enter).1.selectedList = 0 ∧
    (addListScenario.step Msg.enter).1.cursor = (addListScenario.step Msg.enter).1.newItemIdx ∧
    (addListScenario.step Msg.enter).1.textInput.focused = true := by
  have h := add_list_spec addListScenario (by decide) (by decide) (by decide)
  refine ⟨?_, h.2.1, ?_, h.2.2.2.1, h.2.2.2.2.2.1⟩
  · rw [h.1]
    decide
  · rw [h.2.2.1, h.1]
    decide

/-- C7 (amended): in the multi-list variant, confirming either input row
with blank (whitespace-only) trimmed text changes nothing at all — the step
returns the state unchanged with no effect.  (The single-list variant has no
such guard; see the counterexample.) -/
theorem blank_confirm_noop (m : Model) (hoff : m.listStartOffset = m.numKeys)
    (h : (0 ≤ m.newItemIdx ∧ m.cursor = m.newItemIdx ∧ trimSpace m.textInput.text = "") ∨
         (m.cursor = m.newListIdx ∧ trimSpace m.newListTextInput.text = "")) :
    m.step Msg.enter = (m, Effect.none) := by
  show (m.enterStep, Effect.none) = (m, Effect.none)
  have hicur : m.getItemCursor = m.cursor - m.listStartOffset := rfl
  have htoteq : m.total = m.numKeys + m.numItems + m.inputsCount := rfl
  have hin := numItems_nonneg m
  rcases h with ⟨hii, hcc, hblank⟩ | ⟨hcc, hblank⟩
  · rcases newItemIdx_cases m with ⟨hic, hidx, _⟩ | ⟨hic, hidx, _⟩
    · have hb1 : ¬ m.cursor < m.numKeys := by omega
      have hb2 : ¬ (0 ≤ m.getItemCursor ∧ m.getItemCursor < m.numItems) := by omega
      unfold Model.enterStep
      rw [if_neg hb1, if_neg hb2, if_pos ⟨hii, hcc⟩, if_pos hblank]
    · exact absurd hii (by omega)
  · obtain ⟨hb1, hb2, hb3⟩ := enterStep_branch_facts m hoff hcc
    unfold Model.enterStep
    rw [if_neg hb1, if_neg hb2, if_neg hb3, if_pos hcc, if_pos hblank]

/-- C7 witness: submitting whitespace-only add-item text in a one-list
model leaves the model and effect untouched. -/
theorem blank_confirm_witness :
    blankItemModel.step Msg.enter = (blankItemModel, Effect.none) :=
  blank_confirm_noop blankItemModel (by decide)
    (Or.inl ⟨by decide, by decide, by decide⟩)

/-- C7 counterexample: in the single-list variant (`main.go`), submitting a
whitespace-only string at the input row appends it verbatim as a new item —
the item count changes, refuting the claim for that variant. -/
theorem blank_confirm_counterexample :
    trimSpace Single.blankSubmitModel.textInput.text = "" ∧
    Single.blankSubmitModel.cursor = (Single.blankSubmitModel.items.length : Int) ∧
    Single.blankSubmitModel.items.length = 0 ∧
    (Single.sStep Single.blankSubmitModel Msg.enter).1.items.length = 1 := by
  decide

/-- C8: with at least one list and the cursor on the add-item row, the
single-character quit key is not a quit request — it is delivered as text
to the focused input and nothing else changes; in every other state the quit
key, and the force-quit key in all states, persists the serialized snapshot
and terminates. -/
theorem quit_spec (m : Model) (hoff : m.listStartOffset = m.numKeys) :
    ((0 < m.numKeys ∧ m.cursor = m.numKeys + m.numItems) →
      ((m.step Msg.q).2 = Effect.none ∧
       (m.step Msg.q).1.keys = m.keys ∧ (m.step Msg.q).1.lists = m.lists ∧
       (m.step Msg.q).1.cursor = m.cursor ∧
       (m.step Msg.q).1.selectedList = m.selectedList ∧
       (m.step Msg.q).1.listStartOffset = m.listStartOffset ∧
       (m.step Msg.q).1.textInput.focused = m.textInput.focused ∧
       (m.step Msg.q).1.newListTextInput.focused = m.newListTextInput.focused ∧
       (m.step Msg.q).1.textInput.text =
         (if m.textInput.focused then m.textInput.text.push 'q' else m.textInput.text) ∧
       (m.step Msg.q).1.newListTextInput.text =
         (if m.newListTextInput.focused then m.newListTextInput.text.push 'q'
          else m.newListTextInput.text))) ∧
    (¬ (0 < m.numKeys ∧ m.cursor = m.numKeys + m.numItems) →
      m.step Msg.q = (m, Effect.quit m.saveItems)) ∧
    m.step Msg.ctrlC = (m, Effect.quit m.saveItems) := by
  have hicur : m.getItemCursor = m.cursor - m.listStartOffset := rfl
  refine ⟨?_, ?_, rfl⟩
  · intro hq
    have hcnd : m.getItemCursor = m.numItems ∧ 0 < m.numKeys := by
      constructor <;> omega
    have hstep : m.step Msg.q = (m.fallthroughEdit Msg.q, Effect.none) := by
      simp only [Model.step]
      rw [if_pos hcnd]
    rw [hstep]
    exact ⟨rfl, rfl, rfl, rfl, rfl, rfl, typeChar_focused 'q' _, typeChar_focused 'q' _,
      typeChar_text 'q' _, typeChar_text 'q' _⟩
  · intro hn
    have hncnd : ¬ (m.getItemCursor = m.numItems ∧ 0 < m.numKeys) := by
      intro hcnd
      exact hn ⟨hcnd.2, by omega⟩
    simp only [Model.step]
    rw [if_neg hncnd]

/-- C8 witness: on the add-item row of a one-list model, pressing the quit
key types it into the focused add-item field instead of quitting. -/
theorem quit_witness :
    (quitModel.step Msg.q).2 = Effect.none ∧
    (quitModel.step Msg.q).1.textInput.text = "miq" ∧
    (quitModel.step Msg.q).1.cursor = quitModel.cursor := by
  have h := (quit_spec quitModel (by decide)).1 ⟨by decide, by decide⟩
  refine ⟨h.1, ?_, h.2.2.2.1⟩
  · rw [h.2.2.2.2.2.2.2.2.1]
    decide

/-! ### Persistence round trip -/

lemma insertSorted_perm (p : String × List ListItem) (l : Lists) :
    (insertSorted p l).Perm (p :: l) := by
  induction l with
  | nil => exact List.Perm.refl _
  | cons q rest ih =>
      unfold insertSorted
      split_ifs with h
      · exact List.Perm.refl _
      · exact (ih.cons q).trans (List.Perm.swap p q rest)

lemma sortPairs_perm (l : Lists) : (sortPairs l).Perm l := by
  induction l with
  | nil => exact List.Perm.refl _
  | cons p rest ih =>
      exact (insertSorted_perm p (sortPairs rest)).trans (ih.cons p)

lemma lookupL_perm {l l' : Lists} (h : l.Perm l') (k : String) :
    (l.map Prod.fst).Nodup → lookupL k l = lookupL k l' := by
  induction h with
  | nil => intro _; rfl
  | cons x _ ih =>
      intro hnd
      obtain ⟨kx, vx⟩ := x
      simp only [List.map_cons, List.nodup_cons] at hnd
      by_cases hk : kx = k
      · simp [lookupL, hk]
      · simp [lookupL, hk, ih hnd.2]
  | swap x y l =>
      intro hnd
      obtain ⟨kx, vx⟩ := x
      obtain ⟨ky, vy⟩ := y
      simp only [List.map_cons, List.nodup_cons, List.mem_cons] at hnd
      by_cases h1 : ky = k
      · by_cases h2 : kx = k
        · exact absurd (h2.trans h1.symm) (fun hc => hnd.1 (Or.inl hc.symm))
        · simp [lookupL, h1, h2]
      · by_cases h2 : kx = k
        · simp [lookupL, h1, h2]
        · simp [lookupL, h1, h2]
  | trans h1 _ ih1 ih2 =>
      intro hnd
      have hnd2 := ((h1.map Prod.fst).nodup_iff).mp hnd
      rw [ih1 hnd, ih2 hnd2]

lemma decodeStrings_map (l : List String) : decodeStrings (l.map Json.str) = some l := by
  induction l with
  | nil => rfl
  | cons s rest ih => simp [decodeStrings, ih]

lemma decodeItem_marshalItem (it : ListItem) : decodeItem (marshalItem it) = some it := rfl

lemma decodeItemsGo_map (l : List ListItem) :
    decodeItems.go (l.map marshalItem) = some l := by
  induction l with
  | nil => rfl
  | cons it rest ih => simp [decodeItems.go, decodeItem_marshalItem, ih]

lemma decodeItems_marshalItems (l : List ListItem) :
    decodeItems (marshalItems l) = some l := by
  unfold marshalItems decodeItems
  exact decodeItemsGo_map l

lemma decodePairs_map (l : Lists) :
    decodePairs (l.map fun p => (p.1, marshalItems p.2)) = some l := by
  induction l with
  | nil => rfl
  | cons p rest ih =>
      obtain ⟨k, v⟩ := p
      simp [decodePairs, decodeItems_marshalItems, ih]

lemma unmarshalData_marshalData (d : JsonData) :
    unmarshalData (marshalData d) = some ⟨d.keys, sortPairs d.lists⟩ := by
  unfold marshalData unmarshalData
  simp [lookupJ, decodeStrings_map, decodePairs_map]

/-- C9: saving a model's snapshot and loading it back succeeds and
reproduces the key sequence identically (order preserved) and the list
mapping identically — the loaded association list is a permutation of the
stored one with exactly the same entries, and (given the map's keys are
duplicate-free, as Go maps guarantee) every lookup agrees, so item order
within each list is preserved. -/
theorem save_load_roundtrip (m : Model) (hnd : (m.lists.map Prod.fst).Nodup) :
    loadItems m.saveItems = some (sortPairs m.lists, m.keys) ∧
    (sortPairs m.lists).Perm m.lists ∧
    (∀ k, lookupL k (sortPairs m.lists) = lookupL k m.lists) := by
  refine ⟨?_, sortPairs_perm m.lists, ?_⟩
  · unfold loadItems Model.saveItems
    rw [unmarshalData_marshalData]
    rfl
  · intro k
    exact lookupL_perm (sortPairs_perm m.lists) k
      (((sortPairs_perm m.lists).map Prod.fst).nodup_iff.mpr hnd)

/-- C9 witness: the round trip evaluated on a concrete two-list model. -/
theorem save_load_witness :
    loadItems roundtripModel.saveItems =
      some (sortPairs roundtripModel.lists, roundtripModel.keys) ∧
    lookupL "B" (sortPairs roundtripModel.lists) = lookupL "B" roundtripModel.lists := by
  have h := save_load_roundtrip roundtripModel (by decide)
  exact ⟨h.1, h.2.2 "B"⟩

/-! ### Key/mapping correspondence -/

lemma mem_map_fst_eraseL {x k : String} {l : Lists} :
    x ∈ (eraseL k l).map Prod.fst ↔ x ∈ l.map Prod.fst ∧ x ≠ k := by
  simp only [List.mem_map]
  constructor
  · rintro ⟨p, hp, rfl⟩
    obtain ⟨hpl, hne⟩ := mem_eraseL.mp hp
    exact ⟨⟨p, hpl, rfl⟩, hne⟩
  · rintro ⟨⟨p, hpl, rfl⟩, hne⟩
    exact ⟨p, mem_eraseL.mpr ⟨hpl, hne⟩, rfl⟩

lemma nodup_map_fst_eraseL (k : String) (l : Lists) (h : (l.map Prod.fst).Nodup) :
    ((eraseL k l).map Prod.fst).Nodup := by
  induction l with
  | nil => simp [eraseL]
  | cons p rest ih =>
      obtain ⟨k', v'⟩ := p
      simp only [List.map_cons, List.nodup_cons] at h
      by_cases hk : k' = k
      · simp only [eraseL, if_pos hk]
        exact ih h.2
      · simp only [eraseL, if_neg hk, List.map_cons, List.nodup_cons]
        refine ⟨?_, ih h.2⟩
        intro hc
        exact h.1 (mem_map_fst_eraseL.mp hc).1

lemma nodup_append_singleton {α : Type} {l : List α} {a : α}
    (h : l.Nodup) (ha : a ∉ l) : (l ++ [a]).Nodup := by
  induction l with
  | nil => simp
  | cons x xs ih =>
      simp only [List.nodup_cons] at h
      simp only [List.cons_append, List.nodup_cons]
      refine ⟨?_, ih h.2 (fun hc => ha (List.mem_cons_of_mem x hc))⟩
      intro hc
      rcases List.mem_append.mp hc with hc | hc
      · exact h.1 hc
      · simp only [List.mem_singleton] at hc
        exact ha (hc ▸ List.mem_cons_self x xs)

lemma invND_of_map_fst_eq {m m' : Model} (hk : m'.keys = m.keys)
    (hl : m'.lists.map Prod.fst = m.lists.map Prod.fst) (h : InvND m) : InvND m' := by
  obtain ⟨h1, h2, h3, h4⟩ := h
  refine ⟨?_, ?_, ?_, ?_⟩
  · rw [hk]
    exact h1
  · rw [hl]
    exact h2
  · intro k hkk
    rw [hl]
    rw [hk] at hkk
    exact h3 k hkk
  · intro k hkk
    rw [hk]
    rw [hl] at hkk
    exact h4 k hkk

lemma selectedKey_mem (m : Model) (hs0 : 0 ≤ m.selectedList)
    (hs1 : m.selectedList < m.numKeys) : m.selectedKey ∈ m.keys :=
  getD_mem m.keys m.selectedList.toNat
    (by unfold Model.numKeys at hs1; omega) ""

lemma invND_insert_selected (m : Model) (v : List ListItem)
    (hInv : Inv m) (h : InvND m) (hkpos : 0 < m.numKeys)
    {m' : Model} (hk : m'.keys = m.keys)
    (hl : m'.lists = insertL m.selectedKey v m.lists) : InvND m' := by
  have hmem : m.selectedKey ∈ m.keys :=
    selectedKey_mem m hInv.2.2.2.1 (hInv.2.2.2.2 hkpos)
  have hsome : (lookupL m.selectedKey m.lists).isSome = true := by
    rw [lookupL_isSome_iff]
    exact h.2.2.1 _ hmem
  refine invND_of_map_fst_eq hk ?_ h
  rw [hl]
  exact map_fst_insertL_of_present hsome

lemma invND_deleteKeyStep (m : Model) (hInv : Inv m) (h : InvND m)
    (hlt : m.cursor < m.numKeys) : InvND m.deleteKeyStep := by
  obtain ⟨hknd, hlnd, hc1, hc2⟩ := h
  have htn : m.cursor.toNat < m.keys.length := by
    have h0 := hInv.1
    unfold Model.numKeys at hlt
    omega
  have hkeys : m.deleteKeyStep.keys = m.keys.eraseIdx m.cursor.toNat := by
    unfold Model.deleteKeyStep
    split <;> rfl
  have hlists : m.deleteKeyStep.lists = eraseL (m.keys.getD m.cursor.toNat "") m.lists := by
    unfold Model.deleteKeyStep
    split <;> rfl
  refine ⟨?_, ?_, ?_, ?_⟩
  · rw [hkeys]
    exact nodup_eraseIdx hknd
  · rw [hlists]
    exact nodup_map_fst_eraseL _ _ hlnd
  · intro k hkk
    rw [hkeys] at hkk
    have hmem : k ∈ m.keys := mem_of_mem_eraseIdx hkk
    have hne : k ≠ m.keys.getD m.cursor.toNat "" := by
      intro hcq
      exact (not_mem_eraseIdx_self hknd htn) (hcq ▸ hkk)
    rw [hlists, mem_map_fst_eraseL]
    exact ⟨hc1 k hmem, hne⟩
  · intro k hkk
    rw [hlists, mem_map_fst_eraseL] at hkk
    rw [hkeys]
    exact mem_eraseIdx_of_ne (hc2 k hkk.1) htn hkk.2

lemma invND_addListStep (m : Model) (h : InvND m)
    (ht : trimSpace m.newListTextInput.text ∉ m.keys) : InvND m.addListStep := by
  obtain ⟨hknd, hlnd, hc1, hc2⟩ := h
  have htl : trimSpace m.newListTextInput.text ∉ m.lists.map Prod.fst :=
    fun hc => ht (hc2 _ hc)
  have hnone : lookupL (trimSpace m.newListTextInput.text) m.lists = none := by
    cases hx : lookupL (trimSpace m.newListTextInput.text) m.lists with
    | none => rfl
    | some v => exact absurd (lookupL_isSome_iff.mp (by rw [hx]; rfl)) htl
  have hkeys : m.addListStep.keys = m.keys ++ [trimSpace m.newListTextInput.text] := rfl
  have hmap : m.addListStep.lists.map Prod.fst =
      m.lists.map Prod.fst ++ [trimSpace m.newListTextInput.text] := by
    show (insertL (trimSpace m.newListTextInput.text) [] m.lists).map Prod.fst = _
    exact map_fst_insertL_of_absent hnone
  refine ⟨?_, ?_, ?_, ?_⟩
  · rw [hkeys]
    exact nodup_append_singleton hknd ht
  · rw [hmap]
    exact nodup_append_singleton hlnd htl
  · intro k hkk
    rw [hkeys] at hkk
    rw [hmap, List.mem_append]
    rcases List.mem_append.mp hkk with hkk | hkk
    · exact Or.inl (hc1 k hkk)
    · exact Or.inr hkk
  · intro k hkk
    rw [hmap] at hkk
    rw [hkeys, List.mem_append]
    rcases List.mem_append.mp hkk with hkk | hkk
    · exact Or.inl (hc2 k hkk)
    · exact Or.inr hkk

lemma invND_step (m : Model) (msg : Msg) (hInv : Inv m) (h : InvND m)
    (hnd : ¬ addsDuplicateList m msg) : InvND (m.step msg).1 := by
  cases msg with
  | ctrlC => exact h
  | q =>
      simp only [Model.step]
      split_ifs with hq
      · exact invND_of_map_fst_eq rfl rfl h
      · exact h
  | d =>
      simp only [Model.step]
      split_ifs with hd1 hd2
      · exact invND_deleteKeyStep m hInv h hd1
      · exact invND_of_map_fst_eq rfl rfl h
      · push_neg at hd2
        have hipos : 0 < m.numItems := lt_of_le_of_lt hd2.1 hd2.2
        exact invND_insert_selected m _ hInv h
          (numKeys_pos_of_numItems_pos m hipos) rfl rfl
  | up => exact invND_of_map_fst_eq rfl rfl h
  | shiftTab => exact invND_of_map_fst_eq rfl rfl h
  | down => exact invND_of_map_fst_eq rfl rfl h
  | tab => exact invND_of_map_fst_eq rfl rfl h
  | enter =>
      show InvND m.enterStep
      unfold Model.enterStep
      split_ifs with hb1 hb2 hb3 hb4 hb5 hb6
      · exact invND_of_map_fst_eq rfl rfl h
      · exact invND_insert_selected m _ hInv h
          (numKeys_pos_of_numItems_pos m (lt_of_le_of_lt hb2.1 hb2.2)) rfl rfl
      · exact h
      · rcases newItemIdx_cases m with ⟨_, _, hkpos⟩ | ⟨_, hidx, _⟩
        · exact invND_insert_selected m _ hInv h hkpos rfl rfl
        · exact absurd hb3.1 (by rw [hidx]; omega)
      · exact h
      · have ht : trimSpace m.newListTextInput.text ∉ m.keys := by
          intro hc
          exact hnd ⟨rfl, hb1, hb2, hb3, hb5, hb6, hc⟩
        exact invND_addListStep m h ht
      · exact h
  | space =>
      have hs : InvND m.spaceStep := by
        unfold Model.spaceStep
        split_ifs with hb
        · exact invND_insert_selected m _ hInv h
            (numKeys_pos_of_numItems_pos m (lt_of_le_of_lt hb.1 hb.2)) rfl rfl
        · exact h
      exact invND_of_map_fst_eq rfl rfl hs
  | char c => exact invND_of_map_fst_eq rfl rfl h

lemma reachable_of_reachableND {m : Model} (h : ReachableND m) : Reachable m := by
  induction h with
  | init lists keys _ _ _ _ => exact Reachable.init lists keys
  | next m msg _ _ ih => exact Reachable.next m msg ih

lemma initialModel_keys (lists : Lists) (keys : List String) :
    (initialModel lists keys).keys = keys := by
  simp [initialModel]

lemma initialModel_lists (lists : Lists) (keys : List String) :
    (initialModel lists keys).lists = lists := by
  simp [initialModel]

lemma invND_reachableND {m : Model} (h : ReachableND m) : InvND m := by
  induction h with
  | init lists keys h1 h2 h3 h4 =>
      refine ⟨?_, ?_, ?_, ?_⟩
      · rw [initialModel_keys]
        exact h1
      · rw [initialModel_lists]
        exact h2
      · intro k hk
        rw [initialModel_lists]
        rw [initialModel_keys] at hk
        exact h3 k hk
      · intro k hk
        rw [initialModel_keys]
        rw [initialModel_lists] at hk
        exact h4 k hk
  | next m msg hR hnd ih =>
      exact invND_step m msg (inv_reachable (reachable_of_reachableND hR)) ih hnd

/-- C3 (amended): in every state reachable from a well-formed snapshot via
event sequences in which no add-list confirm submits a name already present
in the key sequence, the keys and the mapping correspond exactly: every key
has a mapping entry and every mapping entry's name is a key.  (When a
duplicate name IS added, the correspondence can break — see the
counterexample.) -/
theorem keys_lists_correspond (m : Model) (h : ReachableND m) :
    (∀ k ∈ m.keys, (lookupL k m.lists).isSome = true) ∧
    (∀ p ∈ m.lists, p.1 ∈ m.keys) := by
  obtain ⟨_, _, c1, c2⟩ := invND_reachableND h
  constructor
  · intro k hk
    rw [lookupL_isSome_iff]
    exact c1 k hk
  · intro p hp
    exact c2 p.1 (List.mem_map_of_mem Prod.fst hp)

/-- C3 witness: the correspondence evaluated on a model loaded from a
well-formed one-list snapshot. -/
theorem keys_lists_correspond_witness :
    (∀ k ∈ (initialModel [("A", [])] ["A"]).keys,
      (lookupL k (initialModel [("A", [])] ["A"]).lists).isSome = true) ∧
    (∀ p ∈ (initialModel [("A", [])] ["A"]).lists,
      p.1 ∈ (initialModel [("A", [])] ["A"]).keys) :=
  keys_lists_correspond _
    (ReachableND.init _ _ (by decide) (by decide) (by decide) (by decide))

/-- C3 counterexample: adding the list name "A" twice and deleting the first
"A" key row reaches a state whose key sequence still holds "A" while the
mapping has no entry for it — a dangling key, refuting the claim for states
reached through duplicate names. -/
theorem keys_lists_correspond_counterexample :
    Reachable (applyEvents (initialModel [] []) dupTrace) ∧
    (applyEvents (initialModel [] []) dupTrace).keys = ["A"] ∧
    lookupL "A" (applyEvents (initialModel [] []) dupTrace).lists = none := by
  refine ⟨reachable_applyEvents _ _ (Reachable.init [] []), by decide, by decide⟩

end TuiDo

